import Mathlib

/-!
Shallow embedding of `llmify.py`, a directory-to-document flattening utility.

The script walks a directory tree (`os.walk`), filters out files whose basename
starts with `llmify` or ends with `.md.llm`, drops files that fail the
null-byte-in-first-1024-bytes text heuristic (`is_text_file`), sorts the
surviving paths, and writes one section per file (a separator, a heading with
the relative path, then the file's UTF-8 content decoded with
`errors='replace'`) after a fixed banner.

Modelling notes, keyed to the source:
* A filesystem entry is modelled by `FSFile`: its directory relative to the
  walk root, its basename, its content bytes, and two flags recording whether
  the two independent `open` calls succeed — the classification probe
  (`probeOk`, the `open(file_path, 'rb')` inside `is_text_file`) and the
  content read (`readOk`, the `open(file_path, 'r', ...)` in the write loop).
  The flags model the `except` branches of the two `try` blocks.
* `os.walk(base_dir)` is called with its default `onerror=None`, which ignores
  the `scandir` error raised for a missing or unreadable root and yields no
  entries at all in that case; `walkFiles` models this.  The entries yielded by
  `os.walk` in its `files` component are never directories, so the
  `file_path.is_dir()` guard in the loop is vacuous and not modelled.
* `all_files.sort()` sorts `Path` objects; on POSIX (CPython 3.11+) `Path`
  ordering compares the full path strings codepoint-wise.  All sorted paths
  share the `base_dir + '/'` string prefix, and lexicographic string order on
  strings with a common prefix is the order of the suffixes, so the model
  sorts by the relative-path string.
* `f.read()` with `encoding='utf-8', errors='replace'` is modelled by a total
  UTF-8 decoder that substitutes U+FFFD for each maximal invalid subpart, the
  substitution convention CPython implements.
* In the write loop the separator-plus-heading line is written *before* the
  content `open`; a file that fails at content-read time therefore still
  leaves its heading in the output document, and only the content is missing.
-/

/-- Replacement character U+FFFD substituted for undecodable byte sequences. -/
def replacementChar : Char := Char.ofNat 0xFFFD

/-- A byte in the UTF-8 continuation range `0x80–0xBF`. -/
def isCont (b : Nat) : Bool := 0x80 ≤ b && b < 0xC0

/-- Valid range of the first continuation byte after lead byte `b`, per
RFC 3629 as enforced by CPython's UTF-8 decoder (tighter ranges after
`E0`, `ED`, `F0`, `F4` rule out overlong forms, surrogates, and values
above U+10FFFF). -/
def cont1Ok (b c : Nat) : Bool :=
  if b = 0xE0 then 0xA0 ≤ c && c < 0xC0
  else if b = 0xED then 0x80 ≤ c && c < 0xA0
  else if b = 0xF0 then 0x90 ≤ c && c < 0xC0
  else if b = 0xF4 then 0x80 ≤ c && c < 0x90
  else isCont c

/-- UTF-8 decoding of a byte list, one output entry per decoded unit:
`some c` for a validly encoded scalar value, `none` for each maximal invalid
subpart (CPython's substitution-of-maximal-subparts convention for
`errors='replace'`). Total: every byte list decodes. -/
def decodeUtf8 : List Nat → List (Option Char)
  | [] => []
  | b :: rest =>
    if b < 0x80 then some (Char.ofNat b) :: decodeUtf8 rest
    else if b < 0xC2 then none :: decodeUtf8 rest
    else if b < 0xE0 then
      match rest with
      | [] => [none]
      | c1 :: r1 =>
        if isCont c1 then some (Char.ofNat ((b % 32) * 64 + c1 % 64)) :: decodeUtf8 r1
        else none :: decodeUtf8 (c1 :: r1)
    else if b < 0xF0 then
      match rest with
      | [] => [none]
      | c1 :: r1 =>
        if cont1Ok b c1 then
          match r1 with
          | [] => [none]
          | c2 :: r2 =>
            if isCont c2 then
              some (Char.ofNat ((b % 16) * 4096 + (c1 % 64) * 64 + c2 % 64)) :: decodeUtf8 r2
            else none :: decodeUtf8 (c2 :: r2)
        else none :: decodeUtf8 (c1 :: r1)
    else if b < 0xF5 then
      match rest with
      | [] => [none]
      | c1 :: r1 =>
        if cont1Ok b c1 then
          match r1 with
          | [] => [none]
          | c2 :: r2 =>
            if isCont c2 then
              match r2 with
              | [] => [none]
              | c3 :: r3 =>
                if isCont c3 then
                  some (Char.ofNat
                      ((b % 8) * 262144 + (c1 % 64) * 4096 + (c2 % 64) * 64 + c3 % 64))
                    :: decodeUtf8 r3
                else none :: decodeUtf8 (c3 :: r3)
            else none :: decodeUtf8 (c2 :: r2)
        else none :: decodeUtf8 (c1 :: r1)
    else none :: decodeUtf8 rest

/-- Lossy-but-total decoding: `bytes.decode('utf-8', errors='replace')`.
Each invalid subpart becomes the replacement character. -/
def decodeReplace (bs : List Nat) : String :=
  String.mk ((decodeUtf8 bs).map (fun o => o.getD replacementChar))

/-- A filesystem entry discovered by the walk. `dir` is the entry's directory
relative to the walk root (`""` for the root itself) and `name` its basename,
as produced by `os.walk`; `bytes` is the file's content; `probeOk` records
whether the classification-probe `open`/`read` succeeds and `readOk` whether
the later content-phase `open`/`read` succeeds. -/
structure FSFile where
  dir : String
  name : String
  bytes : List Nat
  probeOk : Bool
  readOk : Bool
deriving DecidableEq

/-- The path of an entry relative to the walk root, as rendered by
`file_path.relative_to(base_dir)`. -/
def FSFile.relPath (f : FSFile) : String :=
  if f.dir = "" then f.name else f.dir ++ "/" ++ f.name

/-- The text-classification heuristic of `llmify.py`: read the first 1024
bytes; text iff the read succeeds and the window has no null byte; any
exception during the probe classifies as binary (`False`). -/
def is_text_file (f : FSFile) : Bool :=
  if f.probeOk then !((f.bytes.take 1024).contains 0) else false

/-- The basename filter at the top of the walk loop:
`file.startswith('llmify') or file.endswith('.md.llm')` skips the entry.
Python's `str.startswith`/`str.endswith` test a codepoint-sequence
prefix/suffix, modelled on the string's character list. -/
def keepName (name : String) : Bool :=
  !(List.isPrefixOf "llmify".data name.data || List.isSuffixOf ".md.llm".data name.data)

/-- The full eligibility filter applied during the walk: the basename rules
and the text heuristic (the `is_dir` guard is vacuous for `os.walk` file
entries). -/
def eligible (f : FSFile) : Bool :=
  keepName f.name && is_text_file f

/-- Codepoint-wise lexicographic order on character lists, the order Python
uses to compare strings. -/
def charsLe : List Char → List Char → Bool
  | [], _ => true
  | _ :: _, [] => false
  | a :: as, b :: bs =>
    if a < b then true
    else if b < a then false
    else charsLe as bs

/-- Boolean comparator used for `all_files.sort()`: relative-path strings in
codepoint-wise lexicographic order (see the modelling notes on `Path`
ordering). -/
def pathLe (a b : FSFile) : Bool := charsLe a.relPath.data b.relPath.data

/-- The comparator as a decidable relation. -/
def pathLeP (a b : FSFile) : Prop := pathLe a b = true

instance : DecidableRel pathLeP :=
  fun a b => inferInstanceAs (Decidable (pathLe a b = true))

/-- Strict path order or equality, an antisymmetric order used to show that
a sorted list of entries with distinct paths is unique. -/
def pathLtEq (a b : FSFile) : Prop := a.relPath < b.relPath ∨ a = b

instance : IsAntisymm FSFile pathLtEq := ⟨by
  rintro a b (h1 | h1) (h2 | h2)
  · exact absurd h2 (lt_asymm h1)
  · exact h2.symm
  · exact h1
  · exact h1⟩

/-- The sorted list of eligible entries handed to the write loop.
`all_files.sort()` is a stable sort under the path comparator; every stable
sort produces the same list, modelled here by insertion sort. -/
def sortedEligible (files : List FSFile) : List FSFile :=
  List.insertionSort pathLeP (files.filter eligible)

/-- The relative paths of the section headings, in the order the write loop
emits them. -/
def sectionPaths (files : List FSFile) : List String :=
  (sortedEligible files).map FSFile.relPath

/-- The separator-plus-heading written for one entry:
`f"\n\n---\n\n# {rel_path}\n\n"`. -/
def sectionHeader (f : FSFile) : String :=
  "\n\n---\n\n# " ++ f.relPath ++ "\n\n"

/-- Everything one entry contributes to the output document: its heading
always (it is written before the content `open`), then its decoded content
when the content read succeeds. -/
def sectionText (f : FSFile) : String :=
  sectionHeader f ++ (if f.readOk then decodeReplace f.bytes else "")

/-- Concatenation of a list of strings, in order. -/
def concatAll : List String → String
  | [] => ""
  | s :: rest => s ++ concatAll rest

/-- Accumulated effect of a run: the output-document content, the stdout
lines, and the stderr lines, each in emission order. -/
structure RunOutput where
  doc : String
  out : List String
  err : List String
deriving DecidableEq

/-- The write loop of `process_directory`, over an already sorted list: per
entry, write the heading, then try the content read; on success append the
decoded content and print a `Processed:` line, on failure print an
`Error processing` line to stderr and continue. -/
def writeSections (base : String) : List FSFile → RunOutput
  | [] => ⟨"", [], []⟩
  | f :: rest =>
    let r := writeSections base rest
    if f.readOk then
      ⟨sectionHeader f ++ (decodeReplace f.bytes ++ r.doc),
       ("Processed: " ++ f.relPath) :: r.out, r.err⟩
    else
      ⟨sectionHeader f ++ r.doc, r.out,
       ("Error processing " ++ (base ++ "/" ++ f.relPath)) :: r.err⟩

/-- The whole of `process_directory`: enumerate, filter, sort, then run the
write loop. -/
def process_directory (base : String) (files : List FSFile) : RunOutput :=
  writeSections base (sortedEligible files)

/-- The directory tree a run sees: whether the root can be scanned at all,
and the entries under it when it can. -/
structure FS where
  rootOk : Bool
  files : List FSFile

/-- `os.walk(base_dir)` with its default `onerror=None`: a missing or
unreadable root makes the initial `scandir` fail, the error is ignored, and
the walk yields no entries. -/
def walkFiles (fs : FS) : List FSFile :=
  if fs.rootOk then fs.files else []

/-- The two banner writes `main` performs before `process_directory`. -/
def banner : String :=
  "# OpenHands Microagents Documentation\n\n" ++
  "This file contains the concatenated contents of all files in the .openhands/microagents directory.\n"

/-- The run performed by `main`: open the output file (the only fatal failure
point, `outputOpenOk`), write the banner, then `process_directory` over the
walk of the root. -/
def mainRun (base : String) (fs : FS) (outputOpenOk : Bool) : Except String RunOutput :=
  if outputOpenOk then
    let r := process_directory base (walkFiles fs)
    Except.ok ⟨banner ++ r.doc, r.out, r.err⟩
  else
    Except.error "cannot open output file"

/-- A plain eligible text file `a.txt` with content `"hi"`. -/
def fileA : FSFile := ⟨"", "a.txt", [104, 105], true, true⟩

/-- An eligible text file `sub/b.txt` in a subdirectory, content `"w"`. -/
def fileB : FSFile := ⟨"sub", "b.txt", [119], true, true⟩

/-- An eligible file that becomes unreadable at content-read time. -/
def fileU : FSFile := ⟨"", "u.txt", [104], true, false⟩

/-- The generating script itself: basename starts with `llmify`, content is
plain text. -/
def llmifyFile : FSFile := ⟨"", "llmify.py", [35, 33], true, true⟩

/-- A previously generated output document: basename ends with `.md.llm`. -/
def outFile : FSFile := ⟨"", "microagents.md.llm", [104], true, true⟩

/-- A file with a text extension whose first bytes include a null byte. -/
def binFile : FSFile := ⟨"", "evil.txt", [0, 65], true, true⟩

/-- A file whose first 1024 bytes are text but whose byte 1024 is null. -/
def bigFile : FSFile := ⟨"", "big.txt", List.replicate 1024 65 ++ [0], true, true⟩

/-- A zero-byte file. -/
def emptyFile : FSFile := ⟨"", "empty.txt", [], true, true⟩

/-- The run output for the one-file demo tree, as computed by the model. -/
def demoRun : RunOutput :=
  ⟨banner ++ (process_directory "/repo" [fileA]).doc,
   (process_directory "/repo" [fileA]).out,
   (process_directory "/repo" [fileA]).err⟩

/-- Lexicographic comparison on character lists agrees with the negation of
the strict lexicographic order in the other direction. -/
theorem charsLe_iff_not_lt : ∀ a b : List Char, charsLe a b = true ↔ ¬ b < a
  | [], b => by
    refine iff_of_true rfl ?_
    intro h
    cases h
  | x :: xs, [] => by
    refine iff_of_false (by simp [charsLe]) ?_
    exact fun hn => hn List.Lex.nil
  | x :: xs, y :: ys => by
    by_cases h1 : x < y
    · refine iff_of_true (by simp [charsLe, h1]) ?_
      intro hlt
      cases hlt with
      | rel h' => exact absurd h' (lt_asymm h1)
      | cons h' => exact lt_irrefl _ h1
    · by_cases h2 : y < x
      · refine iff_of_false (by simp [charsLe, h1, h2]) ?_
        exact fun hn => hn (List.Lex.rel h2)
      · have hxy : x = y := le_antisymm (le_of_not_lt h2) (le_of_not_lt h1)
        subst hxy
        have ih := charsLe_iff_not_lt xs ys
        simp only [charsLe, if_neg h1, if_neg h2]
        rw [ih]
        constructor
        · intro hn hlt
          cases hlt with
          | rel h' => exact absurd h' h1
          | cons h' => exact hn h'
        · intro hn hlt
          exact hn (List.Lex.cons hlt)

/-- The boolean path comparator decides the standard string order on
relative paths. -/
theorem pathLe_iff (a b : FSFile) : pathLe a b = true ↔ a.relPath ≤ b.relPath := by
  rw [pathLe, charsLe_iff_not_lt]
  constructor
  · intro h
    exact le_of_not_lt (fun hlt => h (String.lt_iff_toList_lt.mp hlt))
  · intro h hlt
    exact absurd (String.lt_iff_toList_lt.mpr hlt) (not_lt_of_le h)

instance : IsTotal FSFile pathLeP :=
  ⟨fun a b => by
    rcases le_total a.relPath b.relPath with h | h
    · exact Or.inl ((pathLe_iff a b).mpr h)
    · exact Or.inr ((pathLe_iff b a).mpr h)⟩

instance : IsTrans FSFile pathLeP :=
  ⟨fun a b c hab hbc =>
    (pathLe_iff a c).mpr (le_trans ((pathLe_iff a b).mp hab) ((pathLe_iff b c).mp hbc))⟩

/-- The write loop receives a permutation of the eligible entries. -/
theorem sortedEligible_perm (files : List FSFile) :
    (sortedEligible files).Perm (files.filter eligible) :=
  List.perm_insertionSort pathLeP (files.filter eligible)

/-- The write loop receives the eligible entries sorted by the path
comparator. -/
theorem sortedEligible_sorted (files : List FSFile) :
    List.Sorted pathLeP (sortedEligible files) :=
  List.sorted_insertionSort pathLeP (files.filter eligible)

/-- Membership in the write-loop input is exactly enumeration plus
eligibility. -/
theorem mem_sortedEligible {f : FSFile} {files : List FSFile} :
    f ∈ sortedEligible files ↔ f ∈ files ∧ eligible f = true := by
  rw [(sortedEligible_perm files).mem_iff, List.mem_filter]

/-- Distinct relative paths in the tree stay distinct in the write-loop
input. -/
theorem sortedEligible_relPath_nodup {files : List FSFile}
    (hnd : (files.map FSFile.relPath).Nodup) :
    ((sortedEligible files).map FSFile.relPath).Nodup := by
  have h1 : ((files.filter eligible).map FSFile.relPath).Nodup :=
    List.Nodup.sublist (List.Sublist.map FSFile.relPath (List.filter_sublist files)) hnd
  exact (((sortedEligible_perm files).map FSFile.relPath).symm).nodup h1

/-- With distinct relative paths, the write-loop input is strictly sorted
by relative path. -/
theorem sortedEligible_pairwise_lt {files : List FSFile}
    (hnd : (files.map FSFile.relPath).Nodup) :
    List.Pairwise (fun a b : FSFile => a.relPath < b.relPath) (sortedEligible files) := by
  have hs : List.Pairwise (fun a b : FSFile => a.relPath ≤ b.relPath) (sortedEligible files) :=
    List.Pairwise.imp (fun h => (pathLe_iff _ _).mp h) (sortedEligible_sorted files)
  have hne : List.Pairwise (fun a b : FSFile => a.relPath ≠ b.relPath) (sortedEligible files) :=
    List.pairwise_map.mp (sortedEligible_relPath_nodup hnd)
  exact List.Pairwise.imp (fun h => lt_of_le_of_ne h.1 h.2) (hs.and hne)

/-- The sorted eligible list depends only on the set of enumerated entries,
not on enumeration order, when relative paths are distinct. -/
theorem sortedEligible_eq_of_perm {l1 l2 : List FSFile} (hp : l1.Perm l2)
    (hnd : (l1.map FSFile.relPath).Nodup) :
    sortedEligible l1 = sortedEligible l2 := by
  have hnd2 : (l2.map FSFile.relPath).Nodup := (hp.map FSFile.relPath).nodup hnd
  have hperm : (sortedEligible l1).Perm (sortedEligible l2) :=
    (sortedEligible_perm l1).trans ((hp.filter eligible).trans (sortedEligible_perm l2).symm)
  exact List.eq_of_perm_of_sorted (r := pathLtEq) hperm
    (List.Pairwise.imp Or.inl (sortedEligible_pairwise_lt hnd))
    (List.Pairwise.imp Or.inl (sortedEligible_pairwise_lt hnd2))

/-- The document written by the loop is the concatenation of the per-entry
sections, in list order. -/
theorem writeSections_doc (base : String) (l : List FSFile) :
    (writeSections base l).doc = concatAll (l.map sectionText) := by
  induction l with
  | nil => rfl
  | cons f rest ih =>
    by_cases h : f.readOk = true
    · simp only [writeSections, h, if_pos, List.map_cons, concatAll, sectionText, ih,
        String.append_assoc]
    · rw [Bool.not_eq_true] at h
      simp only [writeSections, h, Bool.false_eq_true, if_false, List.map_cons, concatAll,
        sectionText, ih, String.append_assoc]
      simp

/-- The stderr lines of the loop are exactly one error line per entry whose
content read fails, in list order. -/
theorem writeSections_err (base : String) (l : List FSFile) :
    (writeSections base l).err =
      (l.filter (fun f => !f.readOk)).map
        (fun f => "Error processing " ++ (base ++ "/" ++ f.relPath)) := by
  induction l with
  | nil => rfl
  | cons f rest ih =>
    by_cases h : f.readOk = true
    · simp [writeSections, h, ih]
    · rw [Bool.not_eq_true] at h
      simp [writeSections, h, ih]

/-- A list not containing an element reports `contains = false`. -/
theorem contains_eq_false_of_not_mem {l : List Nat} {a : Nat} (h : a ∉ l) :
    l.contains a = false := by
  cases hc : l.contains a
  · rfl
  · exact absurd (by simpa using hc) h

/-- C1: for every run of `process_directory` over a tree with distinct
relative paths, the document is the in-order concatenation of one section per
sorted eligible entry, and the sequence of section-heading paths is a
permutation of the relative paths of exactly the files passing the
eligibility filter, arranged in strictly ascending codepoint-wise
lexicographic order — hence with no duplicates and no omissions. -/
theorem c1_sections_sorted_complete (base : String) (files : List FSFile)
    (hnd : (files.map FSFile.relPath).Nodup) :
    (process_directory base files).doc = concatAll ((sortedEligible files).map sectionText) ∧
    (sectionPaths files).Perm ((files.filter eligible).map FSFile.relPath) ∧
    List.Pairwise (· < ·) (sectionPaths files) := by
  refine ⟨writeSections_doc base (sortedEligible files), ?_, ?_⟩
  · exact (sortedEligible_perm files).map FSFile.relPath
  · exact List.pairwise_map.mpr (sortedEligible_pairwise_lt hnd)

/-- C1 witness at a two-file tree. -/
theorem c1_witness :
    (process_directory "/repo" [fileB, fileA]).doc
        = concatAll ((sortedEligible [fileB, fileA]).map sectionText) ∧
    (sectionPaths [fileB, fileA]).Perm (([fileB, fileA].filter eligible).map FSFile.relPath) ∧
    List.Pairwise (· < ·) (sectionPaths [fileB, fileA]) :=
  c1_sections_sorted_complete "/repo" [fileB, fileA] (by decide)

/-- C2: the text classification returns text exactly when the probe read
succeeds and the first-1024-byte window has no null byte, and a file with a
null byte in that window is never handed to the write loop, whatever its
name. -/
theorem c2_null_byte_classification (f : FSFile) :
    (is_text_file f = true ↔ (f.probeOk = true ∧ (f.bytes.take 1024).contains 0 = false)) ∧
    ((f.bytes.take 1024).contains 0 = true → ∀ files : List FSFile, f ∉ sortedEligible files) := by
  constructor
  · cases hp : f.probeOk <;> simp [is_text_file, hp]
  · intro hnull files hmem
    have hel := (mem_sortedEligible.mp hmem).2
    have hmem0 : 0 ∈ f.bytes.take 1024 := by simpa using hnull
    have htf : is_text_file f = false := by
      cases hp : f.probeOk <;> simp [is_text_file, hp, hmem0]
    simp [eligible, htf] at hel

/-- C2 witness: a `.txt` file starting with a null byte is excluded. -/
theorem c2_witness :
    is_text_file binFile = false ∧ binFile ∉ sortedEligible [binFile, fileA] :=
  ⟨by decide, (c2_null_byte_classification binFile).2 (by decide) [binFile, fileA]⟩

/-- C3 counterexample: over an unreadable root containing an eligible file,
the run completes normally with a banner-only document instead of failing —
`os.walk` with its default `onerror` swallows the scandir error. -/
theorem c3_counterexample :
    eligible fileA = true ∧
    mainRun "/repo" ⟨false, [fileA]⟩ true = Except.ok ⟨banner, [], []⟩ := by
  constructor
  · decide
  · show Except.ok (⟨banner ++ "", [], []⟩ : RunOutput) = Except.ok ⟨banner, [], []⟩
    simp

/-- C3 amended: a missing or unreadable root makes the walk silently yield
nothing, so the run completes normally writing only the banner; the run fails
only when the output file itself cannot be opened. -/
theorem c3_amended_root_silently_empty (base : String) (fs : FS) (oo : Bool)
    (hroot : fs.rootOk = false) :
    mainRun base fs oo =
      if oo then Except.ok ⟨banner, [], []⟩
      else Except.error "cannot open output file" := by
  cases fs with
  | mk ro files =>
    have hro : ro = false := hroot
    subst hro
    cases oo
    · rfl
    · show Except.ok (⟨banner ++ "", [], []⟩ : RunOutput) = Except.ok ⟨banner, [], []⟩
      simp

/-- C3 witness for the amended statement. -/
theorem c3_witness :
    mainRun "/repo" ⟨false, [fileA]⟩ true =
      if true then Except.ok ⟨banner, [], []⟩
      else Except.error "cannot open output file" :=
  c3_amended_root_silently_empty "/repo" ⟨false, [fileA]⟩ true rfl

/-- C4 counterexample: an eligible entry whose content read fails still
contributes its separator and heading to the output document, refuting the
claim that it contributes nothing. -/
theorem c4_counterexample :
    (process_directory "/repo" [fileU]).doc = "\n\n---\n\n# u.txt\n\n" ∧
    (process_directory "/repo" [fileU]).doc ≠ "" ∧
    (process_directory "/repo" [fileU]).err = ["Error processing /repo/u.txt"] := by
  refine ⟨?_, ?_, ?_⟩ <;> decide

/-- C4 amended: an entry unreadable at content-read time is skipped except
for its already-written separator and heading: one error line naming it is
emitted to stderr, the run continues, and the document is still the in-order
concatenation of all eligible entries' sections, the failed entry
contributing only its heading; every other eligible file is still handed to
the write loop. -/
theorem c4_amended_skip_keeps_heading (base : String) (files : List FSFile) (f : FSFile)
    (hmem : f ∈ files) (helig : eligible f = true) (hread : f.readOk = false) :
    sectionText f = sectionHeader f ∧
    ("Error processing " ++ (base ++ "/" ++ f.relPath)) ∈ (process_directory base files).err ∧
    (process_directory base files).doc = concatAll ((sortedEligible files).map sectionText) ∧
    ∀ g : FSFile, g ∈ files → eligible g = true → g ∈ sortedEligible files := by
  refine ⟨?_, ?_, writeSections_doc base (sortedEligible files), ?_⟩
  · simp [sectionText, hread]
  · rw [process_directory, writeSections_err]
    refine List.mem_map.mpr ⟨f, ?_, rfl⟩
    exact List.mem_filter.mpr ⟨mem_sortedEligible.mpr ⟨hmem, helig⟩, by simp [hread]⟩
  · intro g hg he
    exact mem_sortedEligible.mpr ⟨hg, he⟩

/-- C4 witness at a two-file tree with one unreadable entry. -/
theorem c4_witness :
    sectionText fileU = sectionHeader fileU ∧
    ("Error processing " ++ ("/repo" ++ "/" ++ fileU.relPath))
        ∈ (process_directory "/repo" [fileU, fileA]).err ∧
    (process_directory "/repo" [fileU, fileA]).doc
        = concatAll ((sortedEligible [fileU, fileA]).map sectionText) ∧
    ∀ g : FSFile, g ∈ [fileU, fileA] → eligible g = true → g ∈ sortedEligible [fileU, fileA] :=
  c4_amended_skip_keeps_heading "/repo" [fileU, fileA] fileU (by decide) (by decide) (by decide)

/-- C5: a successful run's document is the fixed two-write banner followed by
the in-order concatenation of the sections, and for every file whose content
read succeeds the section is exactly newline, newline, three dashes, newline,
newline, a heading with the relative path, newline, newline, then the raw
decoded content with nothing added. -/
theorem c5_section_format (base : String) (fs : FS) (r : RunOutput)
    (h : mainRun base fs true = Except.ok r) :
    r.doc = banner ++ concatAll ((sortedEligible (walkFiles fs)).map sectionText) ∧
    ∀ f : FSFile, f.readOk = true →
      sectionText f = "\n\n---\n\n# " ++ f.relPath ++ "\n\n" ++ decodeReplace f.bytes := by
  constructor
  · have h2 : Except.ok (⟨banner ++ (process_directory base (walkFiles fs)).doc,
        (process_directory base (walkFiles fs)).out,
        (process_directory base (walkFiles fs)).err⟩ : RunOutput) = Except.ok r := h
    injection h2 with h3
    rw [← h3]
    simp only [process_directory, writeSections_doc]
  · intro f hf
    simp [sectionText, sectionHeader, hf, String.append_assoc]

/-- C5 witness at a one-file tree. -/
theorem c5_witness :
    demoRun.doc = banner ++ concatAll ((sortedEligible (walkFiles ⟨true, [fileA]⟩)).map sectionText) ∧
    sectionText fileA = "\n\n---\n\n# " ++ fileA.relPath ++ "\n\n" ++ decodeReplace fileA.bytes :=
  ⟨(c5_section_format "/repo" ⟨true, [fileA]⟩ demoRun rfl).1,
   (c5_section_format "/repo" ⟨true, [fileA]⟩ demoRun rfl).2 fileA rfl⟩

/-- C6: a file whose basename starts with `llmify` or ends with `.md.llm` is
never handed to the write loop, even when it passes the text heuristic. -/
theorem c6_self_exclusion (f : FSFile)
    (h : List.isPrefixOf "llmify".data f.name.data = true ∨
         List.isSuffixOf ".md.llm".data f.name.data = true) :
    ∀ files : List FSFile, f ∉ sortedEligible files := by
  intro files hmem
  have hel := (mem_sortedEligible.mp hmem).2
  have hk : keepName f.name = false := by
    rcases h with h | h <;> simp [keepName, h]
  simp [eligible, hk] at hel

/-- C6 witness: the script itself and a prior output file, both passing the
text heuristic, are excluded. -/
theorem c6_witness :
    is_text_file llmifyFile = true ∧ llmifyFile ∉ sortedEligible [llmifyFile, fileA] ∧
    is_text_file outFile = true ∧ outFile ∉ sortedEligible [outFile, fileA] :=
  ⟨by decide, c6_self_exclusion llmifyFile (Or.inl (by decide)) [llmifyFile, fileA],
   by decide, c6_self_exclusion outFile (Or.inr (by decide)) [outFile, fileA]⟩

/-- C7: the run output is independent of the enumeration order of the tree:
two enumerations that are permutations of the same entries with distinct
relative paths produce identical documents, stdout, and stderr, so the
output depends only on the set of eligible files and their contents. -/
theorem c7_determinism (base : String) (oo : Bool) (ro : Bool) (l1 l2 : List FSFile)
    (hperm : l1.Perm l2) (hnd : (l1.map FSFile.relPath).Nodup) :
    mainRun base ⟨ro, l1⟩ oo = mainRun base ⟨ro, l2⟩ oo := by
  cases ro
  · rfl
  · have h := sortedEligible_eq_of_perm hperm hnd
    unfold mainRun process_directory
    rw [show walkFiles ⟨true, l1⟩ = l1 from rfl, show walkFiles ⟨true, l2⟩ = l2 from rfl, h]

/-- C7 witness: the two enumeration orders of a two-file tree. -/
theorem c7_witness :
    mainRun "/repo" ⟨true, [fileB, fileA]⟩ true = mainRun "/repo" ⟨true, [fileA, fileB]⟩ true :=
  c7_determinism "/repo" true true [fileB, fileA] [fileA, fileB] (by decide) (by decide)

/-- C8: content decoding is total — a run with an openable output never
fails, whatever bytes any file holds — and every byte position at which
decoding finds an invalid sequence is replaced in place by the visible
replacement character. -/
theorem c8_lossy_decoding (bs : List Nat) (i : Nat)
    (h : (decodeUtf8 bs)[i]? = some none) :
    (decodeReplace bs).data[i]? = some replacementChar ∧
    ∀ (base : String) (fs : FS), (mainRun base fs true).isOk = true := by
  constructor
  · show ((decodeUtf8 bs).map (fun o => o.getD replacementChar))[i]? = some replacementChar
    rw [List.getElem?_map, h]
    rfl
  · intro base fs
    rfl

/-- C8 witness: an invalid lead byte decodes to the replacement character. -/
theorem c8_witness :
    (decodeReplace [0xFF, 0x41]).data[0]? = some replacementChar ∧
    ∀ (base : String) (fs : FS), (mainRun base fs true).isOk = true :=
  c8_lossy_decoding [0xFF, 0x41] 0 (by decide)

/-- C9: a file passing the name rules whose first 1024 bytes are null-free is
classified text and included, and the classification depends only on the
probe result and the first-1024-byte window — bytes at offset 1024 and
beyond never influence it. -/
theorem c9_probe_window (f : FSFile) (files : List FSFile)
    (hp : f.probeOk = true) (hn : (f.bytes.take 1024).contains 0 = false)
    (hk : keepName f.name = true) (hmem : f ∈ files) :
    f ∈ sortedEligible files ∧
    ∀ g : FSFile, g.probeOk = f.probeOk → g.bytes.take 1024 = f.bytes.take 1024 →
      is_text_file g = is_text_file f := by
  have hnm : 0 ∉ f.bytes.take 1024 := by
    intro hin
    simp [hin] at hn
  constructor
  · exact mem_sortedEligible.mpr ⟨hmem, by simp [eligible, hk, is_text_file, hp, hnm]⟩
  · intro g h1 h2
    simp [is_text_file, h1, h2, hp]

/-- C9 witness: a file whose byte at offset 1024 is null is still included. -/
theorem c9_witness :
    bigFile ∈ sortedEligible [bigFile] ∧
    ∀ g : FSFile, g.probeOk = bigFile.probeOk → g.bytes.take 1024 = bigFile.bytes.take 1024 →
      is_text_file g = is_text_file bigFile :=
  c9_probe_window bigFile [bigFile] rfl
    (by
      have ht : bigFile.bytes.take 1024 = List.replicate 1024 (65 : Nat) :=
        List.take_left' (by rw [List.length_replicate])
      have hnm : (0 : Nat) ∉ List.replicate 1024 (65 : Nat) := by
        rw [List.mem_replicate]
        intro hc
        exact absurd hc.2 (by decide)
      rw [ht]
      exact contains_eq_false_of_not_mem hnm)
    (by decide) (List.mem_cons_self bigFile [])

/-- C10: a zero-byte file passing the name rules is classified text (the
empty probe window has no null byte), decodes to the empty body, and is
included; its section is exactly its heading followed by an empty body. -/
theorem c10_empty_file (f : FSFile) (hb : f.bytes = []) (hp : f.probeOk = true)
    (hk : keepName f.name = true) :
    is_text_file f = true ∧
    decodeReplace f.bytes = "" ∧
    sectionText f = sectionHeader f ∧
    ∀ files : List FSFile, f ∈ files → f ∈ sortedEligible files := by
  have h1 : is_text_file f = true := by simp [is_text_file, hp, hb]
  refine ⟨h1, ?_, ?_, ?_⟩
  · rw [hb]
    rfl
  · cases hr : f.readOk
    · simp [sectionText, hr]
    · simp [sectionText, hr, hb, show decodeReplace [] = ("" : String) from rfl]
  · intro files hmem
    exact mem_sortedEligible.mpr ⟨hmem, by simp [eligible, hk, h1]⟩

/-- C10 witness: an empty file in a one-file tree. -/
theorem c10_witness :
    is_text_file emptyFile = true ∧
    decodeReplace emptyFile.bytes = "" ∧
    sectionText emptyFile = sectionHeader emptyFile ∧
    ∀ files : List FSFile, emptyFile ∈ files → emptyFile ∈ sortedEligible files :=
  c10_empty_file emptyFile rfl rfl (by decide)
